import Mathlib

/-!
Verification of the page-security-descriptor component of the repository
(`sgx-types/src/page.rs`) and the queryable-value capability
(`sgx-show/src/data/mod.rs`), as a shallow embedding in Lean 4.

Machine bytes (`u8`) and words (`u16`) are modelled as `Nat` with explicit
`% 256` / `% 65536` where the code truncates; the bitflags-generated
struct `Flags { bits: u8 }` is a one-field structure over `Nat`; the
`repr(C, align(64))` layout of `SecInfo` is modelled by an executable
layout calculator following the C representation rules.
-/

namespace Page

/-- The `Flags` of a page: the struct generated by the bitflags invocation,
wrapping a single byte of bits. Defined constants occupy bits 0..5. -/
structure Flags where
  bits : Nat
deriving DecidableEq

/-- The page can be read from inside the enclave (bit 0). -/
def Flags.R : Flags := ⟨1⟩

/-- The page can be written from inside the enclave (bit 1). -/
def Flags.W : Flags := ⟨2⟩

/-- The page can be executed from inside the enclave (bit 2). -/
def Flags.X : Flags := ⟨4⟩

/-- The page is in the PENDING state (bit 3). -/
def Flags.PENDING : Flags := ⟨8⟩

/-- The page is in the MODIFIED state (bit 4). -/
def Flags.MODIFIED : Flags := ⟨16⟩

/-- A permission restriction operation is in progress (bit 5). -/
def Flags.PR : Flags := ⟨32⟩

/-- The empty flag set, `Flags::empty()`. -/
def Flags.empty : Flags := ⟨0⟩

/-- Union of two flag sets (`BitOr` on the generated struct). -/
def Flags.union (a b : Flags) : Flags := ⟨a.bits ||| b.bits⟩

/-- Intersection of two flag sets (`BitAnd` on the generated struct). -/
def Flags.inter (a b : Flags) : Flags := ⟨a.bits &&& b.bits⟩

/-- Containment test, `Flags::contains`. -/
def Flags.contains (a b : Flags) : Bool := a.bits &&& b.bits == b.bits

/-- Emptiness test, `Flags::is_empty`. -/
def Flags.is_empty (a : Flags) : Bool := a.bits == 0

/-- A flags value whose bits lie inside the defined universe
(bits 0..5, i.e. the bitflags `all()` mask `0x3F`): the representation
invariant the bitflags-generated safe interface maintains. -/
def Flags.Valid (f : Flags) : Prop := f.bits < 64

/-- Flags values reachable through the public interface: the six named
constants, the empty set, and closure under union and intersection. -/
inductive Flags.Reachable : Flags → Prop where
  | r : Flags.Reachable Flags.R
  | w : Flags.Reachable Flags.W
  | x : Flags.Reachable Flags.X
  | pending : Flags.Reachable Flags.PENDING
  | modified : Flags.Reachable Flags.MODIFIED
  | pr : Flags.Reachable Flags.PR
  | empty : Flags.Reachable Flags.empty
  | union (a b : Flags) : Flags.Reachable a → Flags.Reachable b →
      Flags.Reachable (a.union b)
  | inter (a b : Flags) : Flags.Reachable a → Flags.Reachable b →
      Flags.Reachable (a.inter b)

/-- The `Class` of a page (the `PAGE_TYPE` structure): a closed, byte-sized
enumeration of the five page kinds. -/
inductive Class where
  | Secs
  | Tcs
  | Reg
  | Va
  | Trim
deriving DecidableEq

/-- The `repr(u8)` discriminant of each `Class` variant, exactly as pinned
in the source: `Secs = 0, Tcs = 1, Reg = 2, Va = 3, Trim = 4`. -/
def Class.discriminant : Class → Nat
  | .Secs => 0
  | .Tcs => 1
  | .Reg => 2
  | .Va => 3
  | .Trim => 4

/-- The security information (`SecInfo`) about a page: flags, class, and a
reserved block of 31 `u16` words (62 bytes), `repr(C, align(64))`. -/
structure SecInfo where
  flags : Flags
  «class» : Class
  reserved : List Nat
deriving DecidableEq

/-- `SecInfo::reg`: a SecInfo of class type Regular with the given flags
and a zeroed reserved block. -/
def SecInfo.reg (flags : Flags) : SecInfo :=
  { flags := flags, «class» := Class.Reg, reserved := List.replicate 31 0 }

/-- `SecInfo::tcs`: a SecInfo of class type TCS with empty flags and a
zeroed reserved block. -/
def SecInfo.tcs : SecInfo :=
  { flags := Flags.empty, «class» := Class.Tcs, reserved := List.replicate 31 0 }

/-- The `AsRef<[u8]>` byte view of a `SecInfo`: the 64 bytes of its
`repr(C)` memory, read in order. Byte 0 is the flags byte, byte 1 the
class discriminant, bytes 2..63 the reserved words little-endian. -/
def SecInfo.as_ref (s : SecInfo) : List Nat :=
  (s.flags.bits % 256) :: s.«class».discriminant ::
    (s.reserved.map (fun w => [w % 65536 % 256, w % 65536 / 256])).flatten

/-- The byte view determined purely by the (flags, class) pair of a
constructed descriptor, with the 62 reserved bytes zero. -/
def SecInfo.viewOfFields (f : Flags) (c : Class) : List Nat :=
  (f.bits % 256) :: c.discriminant :: List.replicate 62 0

/-- Decode of a class discriminant byte: the inverse of the layout for the
round-trip property. Out-of-range bytes have no decoding. -/
def Class.ofDiscriminant : Nat → Option Class
  | 0 => some .Secs
  | 1 => some .Tcs
  | 2 => some .Reg
  | 3 => some .Va
  | 4 => some .Trim
  | _ => none

/-- Reinterpretation of a 64-byte view back into the structured (flags,
class) fields, per the wire layout: byte 0 is the flags byte, byte 1 the
class discriminant, 62 reserved bytes follow. -/
def SecInfo.ofBytes (bs : List Nat) : Option (Flags × Class) :=
  match bs with
  | b0 :: b1 :: rest =>
      if rest.length = 62 then
        match Class.ofDiscriminant b1 with
        | some c => some (⟨b0⟩, c)
        | none => none
      else none
  | _ => none

/-- Size and alignment of one field, for the layout calculator. -/
structure FieldLayout where
  size : Nat
  align : Nat

/-- Round `off` up to the next multiple of `a`. -/
def alignUp (off a : Nat) : Nat := ((off + a - 1) / a) * a

/-- Byte offsets assigned to a field list by the `repr(C)` algorithm:
each field is placed at the current offset rounded up to its alignment. -/
def reprCOffsets : Nat → List FieldLayout → List Nat
  | _, [] => []
  | off, f :: fs =>
      let o := alignUp off f.align
      o :: reprCOffsets (o + f.size) fs

/-- The offset one past the last field under the `repr(C)` algorithm. -/
def reprCEnd : Nat → List FieldLayout → Nat
  | off, [] => off
  | off, f :: fs => reprCEnd (alignUp off f.align + f.size) fs

/-- Alignment of a `repr(C, align(n))` struct: the maximum of the `align`
attribute and every field alignment. -/
def structAlign (reprAlign : Nat) (fs : List FieldLayout) : Nat :=
  fs.foldl (fun a f => max a f.align) reprAlign

/-- Size of a `repr(C, align(n))` struct: the end offset rounded up to the
struct alignment. -/
def structSize (reprAlign : Nat) (fs : List FieldLayout) : Nat :=
  alignUp (reprCEnd 0 fs) (structAlign reprAlign fs)

/-- The fields of `SecInfo` in declaration order: `flags: Flags` (a one
byte struct), `class: Class` (a `repr(u8)` enum), `reserved: [u16; 31]`
(62 bytes, two-byte alignment). -/
def secInfoFields : List FieldLayout := [⟨1, 1⟩, ⟨1, 1⟩, ⟨62, 2⟩]

end Page

namespace Show

/-- A provider implementing the `Data` trait, seen through its interface:
`data()` returns an optional typed value, and the `Display` obligation
renders the provider as text. -/
structure Data (T : Type) where
  data : Option T
  display : String

/-- Modelled from the spec: the concrete providers of the queryable-value
capability (the `sgx-show` cpuid module, whose source is not under
`src/`) expose an accessor returning the typed value or the absence
marker, and a textual rendering usable regardless of presence, rendering
"unsupported" when the value is absent. -/
def mkProvider {T : Type} (value : Option T) (render : T → String) : Data T :=
  { data := value
    display :=
      match value with
      | some v => render v
      | none => "unsupported" }

end Show

namespace Page

/-- Helper: a byte inside the defined flags universe has bits 6 and 7
clear. -/
theorem and192_eq_zero_of_lt64 (n : Nat) (h : n < 64) : n &&& 192 = 0 := by
  interval_cases n <;> rfl

/-- Helper: the byte view of any descriptor whose reserved block is the
zeroed 31-word block is determined by its flags and class alone. -/
theorem as_ref_eq_viewOfFields (s : SecInfo)
    (h : s.reserved = List.replicate 31 0) :
    s.as_ref = SecInfo.viewOfFields s.flags s.«class» := by
  simp [SecInfo.as_ref, SecInfo.viewOfFields, h]

/-- C2: for every `Flags` value `f` (including combinations containing the
state bits PENDING, MODIFIED, PR), `SecInfo::reg(f)` returns a descriptor
whose class is `Reg`, whose flags are `f` unchanged, and whose reserved
region is all zero. -/
theorem reg_spec (f : Flags) :
    (SecInfo.reg f).flags = f ∧
    (SecInfo.reg f).«class» = Class.Reg ∧
    (SecInfo.reg f).reserved = List.replicate 31 0 :=
  ⟨rfl, rfl, rfl⟩

/-- C3: `SecInfo::tcs()` always returns a descriptor whose class is `Tcs`,
whose flags are the empty set, and whose reserved region is all zero. -/
theorem tcs_spec :
    SecInfo.tcs.flags = Flags.empty ∧
    SecInfo.tcs.«class» = Class.Tcs ∧
    SecInfo.tcs.reserved = List.replicate 31 0 :=
  ⟨rfl, rfl, rfl⟩

/-- C1: the `repr(C, align(64))` layout of `SecInfo` has total size 64,
alignment 64, `flags` at offset 0, `class` at offset 1, and the 62-byte
reserved region at offset 2 ending at byte 64, independent of any build
configuration (the layout algorithm is deterministic). -/
theorem secinfo_layout :
    structSize 64 secInfoFields = 64 ∧
    structAlign 64 secInfoFields = 64 ∧
    reprCOffsets 0 secInfoFields = [0, 1, 2] ∧
    reprCEnd 0 secInfoFields = 64 := by
  decide

/-- C4: every `Flags` value reachable through the public interface (the
named constants, the empty set, and closure under union and intersection)
has bits 6 and 7 clear and lies inside the defined universe (bits 0..5),
so union and intersection are closed over that universe. -/
theorem reachable_flags_valid (f : Flags) (h : Flags.Reachable f) :
    f.bits &&& 192 = 0 ∧ f.bits < 64 := by
  have hv : f.bits < 64 := by
    induction h with
    | r => decide
    | w => decide
    | x => decide
    | pending => decide
    | modified => decide
    | pr => decide
    | empty => decide
    | union a b _ _ iha ihb =>
        have h64 : (64 : Nat) = 2 ^ 6 := rfl
        have hor : a.bits ||| b.bits < 2 ^ 6 :=
          Nat.or_lt_two_pow (h64 ▸ iha) (h64 ▸ ihb)
        simp only [Flags.union]
        exact h64 ▸ hor
    | inter a b _ _ iha _ =>
        have hle : a.bits &&& b.bits ≤ a.bits := Nat.and_le_left
        simp only [Flags.inter]
        exact Nat.lt_of_le_of_lt hle iha
  exact ⟨and192_eq_zero_of_lt64 _ hv, hv⟩

/-- Witness for C4 at the concrete reachable value `R ∪ PENDING`. -/
theorem reachable_flags_valid_witness :
    (Flags.R.union Flags.PENDING).bits &&& 192 = 0 ∧
    (Flags.R.union Flags.PENDING).bits < 64 :=
  reachable_flags_valid _
    (Flags.Reachable.union _ _ Flags.Reachable.r Flags.Reachable.pending)

/-- C5: the `Class` enumeration is closed over exactly its five variants,
and the discriminants are the pinned literals Secs=0, Tcs=1, Reg=2, Va=3,
Trim=4. No conversion from arbitrary integers into `Class` is part of the
embedded interface. -/
theorem class_enumeration :
    (∀ c : Class, c = Class.Secs ∨ c = Class.Tcs ∨ c = Class.Reg ∨
      c = Class.Va ∨ c = Class.Trim) ∧
    Class.discriminant Class.Secs = 0 ∧
    Class.discriminant Class.Tcs = 1 ∧
    Class.discriminant Class.Reg = 2 ∧
    Class.discriminant Class.Va = 3 ∧
    Class.discriminant Class.Trim = 4 := by
  refine ⟨fun c => ?_, rfl, rfl, rfl, rfl, rfl⟩
  cases c <;> simp

/-- Helper: `getD` on a zero-replicate list is zero at every index. -/
theorem getD_replicate_zero (n j : Nat) :
    (List.replicate n (0 : Nat)).getD j 0 = 0 := by
  induction n generalizing j with
  | zero => simp [List.getD]
  | succ n ih =>
      cases j with
      | zero => simp [List.replicate]
      | succ j =>
          rw [List.replicate, List.getD_cons_succ]
          exact ih j

/-- Helper: the byte view of `SecInfo::reg(f)` for a valid flags value. -/
theorem as_ref_reg_eq (f : Flags) (h : f.Valid) :
    (SecInfo.reg f).as_ref = f.bits :: 2 :: List.replicate 62 0 := by
  have hv := as_ref_eq_viewOfFields (SecInfo.reg f) rfl
  rw [hv]
  have h256 : f.bits % 256 = f.bits :=
    Nat.mod_eq_of_lt (Nat.lt_trans h (by decide))
  simp [SecInfo.viewOfFields, SecInfo.reg, Class.discriminant, h256]

/-- Helper: the byte view of `SecInfo::tcs()`. -/
theorem as_ref_tcs_eq :
    SecInfo.tcs.as_ref = 0 :: 1 :: List.replicate 62 0 := by
  have hv := as_ref_eq_viewOfFields SecInfo.tcs rfl
  rw [hv]
  simp [SecInfo.viewOfFields, SecInfo.tcs, Flags.empty, Class.discriminant]

/-- C6: for every descriptor built by `SecInfo::reg(f)` (with the flags
invariant) or `SecInfo::tcs()`, the byte view is exactly 64 bytes: byte 0
is the flags bitmask with bits 6 and 7 clear, byte 1 is the class
discriminant (2 for Reg, 1 for Tcs), and bytes 2 through 63 are zero. -/
theorem as_ref_layout (f : Flags) (h : f.Valid) :
    ((SecInfo.reg f).as_ref.length = 64 ∧
     (SecInfo.reg f).as_ref.getD 0 0 = f.bits ∧
     f.bits &&& 192 = 0 ∧
     (SecInfo.reg f).as_ref.getD 1 0 = 2 ∧
     ∀ i, 2 ≤ i → i < 64 → (SecInfo.reg f).as_ref.getD i 0 = 0) ∧
    (SecInfo.tcs.as_ref.length = 64 ∧
     SecInfo.tcs.as_ref.getD 0 0 = 0 ∧
     SecInfo.tcs.as_ref.getD 1 0 = 1 ∧
     ∀ i, 2 ≤ i → i < 64 → SecInfo.tcs.as_ref.getD i 0 = 0) := by
  have hreg := as_ref_reg_eq f h
  have htcs := as_ref_tcs_eq
  constructor
  · refine ⟨?_, ?_, and192_eq_zero_of_lt64 _ h, ?_, ?_⟩
    · rw [hreg]; simp
    · simp [hreg]
    · simp [hreg]
    · intro i h2 _
      obtain ⟨j, rfl⟩ : ∃ j, i = j + 2 := ⟨i - 2, by omega⟩
      rw [hreg]
      simpa using getD_replicate_zero 62 j
  · refine ⟨?_, ?_, ?_, ?_⟩
    · rw [htcs]; simp
    · simp [htcs]
    · simp [htcs]
    · intro i h2 _
      obtain ⟨j, rfl⟩ : ∃ j, i = j + 2 := ⟨i - 2, by omega⟩
      rw [htcs]
      simpa using getD_replicate_zero 62 j

/-- Witness for C6 at the concrete flags value `R`. -/
theorem as_ref_layout_witness :
    ((SecInfo.reg Flags.R).as_ref.length = 64 ∧
     (SecInfo.reg Flags.R).as_ref.getD 0 0 = Flags.R.bits ∧
     Flags.R.bits &&& 192 = 0 ∧
     (SecInfo.reg Flags.R).as_ref.getD 1 0 = 2 ∧
     ∀ i, 2 ≤ i → i < 64 → (SecInfo.reg Flags.R).as_ref.getD i 0 = 0) ∧
    (SecInfo.tcs.as_ref.length = 64 ∧
     SecInfo.tcs.as_ref.getD 0 0 = 0 ∧
     SecInfo.tcs.as_ref.getD 1 0 = 1 ∧
     ∀ i, 2 ≤ i → i < 64 → SecInfo.tcs.as_ref.getD i 0 = 0) :=
  as_ref_layout Flags.R (by show (1 : Nat) < 64; decide)

/-- C7: reinterpreting the 64-byte view of a constructed descriptor back
into the structured fields reproduces the original flags and class
exactly. -/
theorem byte_roundtrip (f : Flags) (h : f.Valid) :
    SecInfo.ofBytes (SecInfo.reg f).as_ref = some (f, Class.Reg) ∧
    SecInfo.ofBytes SecInfo.tcs.as_ref = some (Flags.empty, Class.Tcs) := by
  constructor
  · rw [as_ref_reg_eq f h]
    simp [SecInfo.ofBytes, Class.ofDiscriminant]
  · rw [as_ref_tcs_eq]
    simp [SecInfo.ofBytes, Class.ofDiscriminant, Flags.empty]

/-- Witness for C7 at the concrete flags value `R ∪ W`. -/
theorem byte_roundtrip_witness :
    SecInfo.ofBytes (SecInfo.reg (Flags.R.union Flags.W)).as_ref =
      some (Flags.R.union Flags.W, Class.Reg) ∧
    SecInfo.ofBytes SecInfo.tcs.as_ref = some (Flags.empty, Class.Tcs) :=
  byte_roundtrip (Flags.R.union Flags.W) (by show (3 : Nat) < 64; decide)

/-- C8: `R ∪ W ∪ X` has exactly bits 0, 1, 2 set (its byte is 7); union
of flags is commutative and idempotent; intersection with the empty set
is empty. -/
theorem flags_algebra :
    ((Flags.R.union Flags.W).union Flags.X).bits = 7 ∧
    (∀ a b : Flags, a.union b = b.union a) ∧
    (∀ a : Flags, a.union a = a) ∧
    (∀ a : Flags, a.inter Flags.empty = Flags.empty) := by
  refine ⟨rfl, ?_, ?_, ?_⟩
  · intro a b
    simp [Flags.union, Nat.or_comm]
  · intro a
    simp [Flags.union]
  · intro a
    simp [Flags.inter, Flags.empty]

/-- C10: descriptor construction is deterministic: any two descriptors
produced by `SecInfo::reg(f)` are equal with identical byte views, any
two produced by `SecInfo::tcs()` likewise, and the byte view of any
descriptor with the zeroed reserved block is a pure function of its
(flags, class) pair. -/
theorem construction_deterministic (f : Flags) (s t u v : SecInfo)
    (hs : s = SecInfo.reg f) (ht : t = SecInfo.reg f)
    (hu : u = SecInfo.tcs) (hv : v = SecInfo.tcs) :
    (s = t ∧ s.as_ref = t.as_ref) ∧
    (u = v ∧ u.as_ref = v.as_ref) ∧
    s.as_ref = SecInfo.viewOfFields s.flags s.«class» ∧
    u.as_ref = SecInfo.viewOfFields u.flags u.«class» := by
  subst hs ht hu hv
  exact ⟨⟨rfl, rfl⟩, ⟨rfl, rfl⟩,
    as_ref_eq_viewOfFields _ rfl, as_ref_eq_viewOfFields _ rfl⟩

/-- Witness for C10 at the concrete flags value `W`. -/
theorem construction_deterministic_witness :
    (SecInfo.reg Flags.W = SecInfo.reg Flags.W ∧
     (SecInfo.reg Flags.W).as_ref = (SecInfo.reg Flags.W).as_ref) ∧
    (SecInfo.tcs = SecInfo.tcs ∧ SecInfo.tcs.as_ref = SecInfo.tcs.as_ref) ∧
    (SecInfo.reg Flags.W).as_ref =
      SecInfo.viewOfFields (SecInfo.reg Flags.W).flags
        (SecInfo.reg Flags.W).«class» ∧
    SecInfo.tcs.as_ref =
      SecInfo.viewOfFields SecInfo.tcs.flags SecInfo.tcs.«class» :=
  construction_deterministic Flags.W _ _ _ _ rfl rfl rfl rfl

end Page

namespace Show

/-- C9: a provider of the queryable-value capability holding no value
returns the absence marker from its accessor and renders as the non-empty
text "unsupported"; a provider holding a value returns exactly that value
from its accessor. -/
theorem data_contract (T : Type) (v : Option T) (render : T → String) :
    (v = none → (mkProvider v render).data = none ∧
      (mkProvider v render).display = "unsupported" ∧
      0 < (mkProvider v render).display.length) ∧
    (∀ x : T, v = some x → (mkProvider v render).data = some x) := by
  constructor
  · rintro rfl
    refine ⟨rfl, rfl, ?_⟩
    show 0 < ("unsupported" : String).length
    decide
  · rintro x rfl
    rfl

/-- Witness for C9 at concrete providers over `Nat`, one absent and one
holding the value 7. -/
theorem data_contract_witness :
    ((mkProvider (none : Option Nat) (fun n => toString n)).data = none ∧
     (mkProvider (none : Option Nat) (fun n => toString n)).display =
       "unsupported" ∧
     0 < (mkProvider (none : Option Nat) (fun n => toString n)).display.length) ∧
    (mkProvider (some 7 : Option Nat) (fun n => toString n)).data = some 7 :=
  ⟨(data_contract Nat none (fun n => toString n)).1 rfl,
   (data_contract Nat (some 7) (fun n => toString n)).2 7 rfl⟩

end Show
